import Mathlib

/-!
Shallow embedding of the image-layout engine of `makeSpanningBackground.py`.

Conventions used throughout:
* An `ndarray` raster of shape `[height][width][3]` is modelled as an
  `NDImage`: a height, a width, and a pixel function `ℕ → ℕ → ℕ` (the ℕ
  value stands for the RGB triple at that coordinate; the channel axis is
  never sliced by the program, so it is kept abstract).
* Python slice endpoints (negative wrap-around, clipping at the ends) are
  modelled by `pyIdx`; a numpy block assignment `a[y0:y1, x0:x1] = b[...]`
  succeeds when each right-hand dimension equals the left-hand one or is 1
  (numpy broadcasting), and raises `ValueError` otherwise, modelled as
  `Option` (`none` = exception).
* Python float arithmetic in `calculate_scaling` is modelled with exact
  rational arithmetic, and Python 3 `round` (round-half-to-even) with `pyRound`.
-/

namespace MSB

/-- A raster: shape `(h, w)` plus pixel contents. -/
structure NDImage where
  h : ℕ
  w : ℕ
  pix : ℕ → ℕ → ℕ

/-- Resolution of a Python slice endpoint `a` against an axis of length `n`:
negative endpoints count from the end, and everything is clipped into
`[0, n]`.  Matches `slice(a, b).indices(n)` for step 1. -/
def pyIdx (a : ℤ) (n : ℕ) : ℕ :=
  if a < 0 then ((n : ℤ) + a).toNat else min a.toNat n

/-- One dimension of the bounds-clamping done at the top of `copy_subimage`:
four sequential `if` statements adjusting the requested extent `e0` against
the source shape/start (`fsh`, `fs`) and then the destination shape/start
(`tsh`, `ts`).  This mirrors the two `for dim in [0, 1]` loops of the
source, which are independent per dimension. -/
def clampDim (e0 : ℤ) (fsh : ℕ) (fs : ℤ) (tsh : ℕ) (ts : ℤ) : ℤ :=
  let e1 := if fs > (fsh : ℤ) then 0 else e0
  let e2 := if fs + e1 > (fsh : ℤ) then (fsh : ℤ) - fs else e1
  let e3 := if ts > (tsh : ℤ) then 0 else e2
  let e4 := if ts + e3 > (tsh : ℤ) then (tsh : ℤ) - ts else e3
  e4

/-- The pixel contents of the destination raster after the numpy block
assignment of `copy_subimage`: pixels inside the resolved destination
slice receive the corresponding (or, for a broadcast size-1 dimension, the
single) source-slice pixel; all others keep their old value. -/
def copiedPix (ext : ℤ × ℤ) (fromImg toImg : NDImage)
    (fstart tstart : ℤ × ℤ) : ℕ → ℕ → ℕ := fun y x =>
  let ey := clampDim ext.1 fromImg.h fstart.1 toImg.h tstart.1
  let ex := clampDim ext.2 fromImg.w fstart.2 toImg.w tstart.2
  let lsy := pyIdx tstart.1 toImg.h
  let ley := pyIdx (tstart.1 + ey) toImg.h
  let lsx := pyIdx tstart.2 toImg.w
  let lex := pyIdx (tstart.2 + ex) toImg.w
  let rsy := pyIdx fstart.1 fromImg.h
  let rey := pyIdx (fstart.1 + ey) fromImg.h
  let rsx := pyIdx fstart.2 fromImg.w
  let rex := pyIdx (fstart.2 + ex) fromImg.w
  if lsy ≤ y ∧ y < ley ∧ lsx ≤ x ∧ x < lex then
    fromImg.pix (rsy + (if rey - rsy = 1 then 0 else y - lsy))
                (rsx + (if rex - rsx = 1 then 0 else x - lsx))
  else toImg.pix y x

/-- `copy_subimage(yx_extents, from_image, yx_from_start, to_image, yx_to_start)`:
clamp the extents (`clampDim` per dimension), then perform the numpy block
assignment
`to_image[ts0:ts0+e0, ts1:ts1+e1] = from_image[fs0:fs0+e0, fs1:fs1+e1]`.
The result is the new destination raster, or `none` when numpy would raise
a broadcast `ValueError` (slice shapes that neither match nor have a
right-hand dimension of 1). -/
def copy_subimage (ext : ℤ × ℤ) (fromImg : NDImage) (fstart : ℤ × ℤ)
    (toImg : NDImage) (tstart : ℤ × ℤ) : Option NDImage :=
  let ey := clampDim ext.1 fromImg.h fstart.1 toImg.h tstart.1
  let ex := clampDim ext.2 fromImg.w fstart.2 toImg.w tstart.2
  let lly := pyIdx (tstart.1 + ey) toImg.h - pyIdx tstart.1 toImg.h
  let llx := pyIdx (tstart.2 + ex) toImg.w - pyIdx tstart.2 toImg.w
  let rly := pyIdx (fstart.1 + ey) fromImg.h - pyIdx fstart.1 fromImg.h
  let rlx := pyIdx (fstart.2 + ex) fromImg.w - pyIdx fstart.2 fromImg.w
  if (rly = lly ∨ rly = 1) ∧ (rlx = llx ∨ rlx = 1) then
    some ⟨toImg.h, toImg.w, copiedPix ext fromImg toImg fstart tstart⟩
  else none

/-- The clamped destination rectangle
`[dstStart.y, dstStart.y + clampedExtent.y) × [dstStart.x, dstStart.x + clampedExtent.x)`
of a `copy_subimage` call, as a predicate on destination coordinates. -/
def inClampedRect (ext : ℤ × ℤ) (fromImg : NDImage) (fstart : ℤ × ℤ)
    (toImg : NDImage) (tstart : ℤ × ℤ) (y x : ℕ) : Prop :=
  tstart.1 ≤ (y : ℤ) ∧
    (y : ℤ) < tstart.1 + clampDim ext.1 fromImg.h fstart.1 toImg.h tstart.1 ∧
    tstart.2 ≤ (x : ℤ) ∧
    (x : ℤ) < tstart.2 + clampDim ext.2 fromImg.w fstart.2 toImg.w tstart.2

instance (ext : ℤ × ℤ) (fromImg : NDImage) (fstart : ℤ × ℤ)
    (toImg : NDImage) (tstart : ℤ × ℤ) (y x : ℕ) :
    Decidable (inClampedRect ext fromImg fstart toImg tstart y x) := by
  unfold inClampedRect; infer_instance

/-- The resolution tuple of one display, `(height, width, yOffset, xOffset)`, the
format produced by `get_display_info` and consumed throughout the source
(`disp_res[0]` = height, `disp_res[1]` = width, `disp_res[2]` = y offset,
`disp_res[3]` = x offset). -/
structure DispRect where
  h : ℕ
  w : ℕ
  yoff : ℕ
  xoff : ℕ

/-- Python 3 `round` on an exact rational: round to the nearest integer,
ties to the even integer, as Python 3 round does. -/
def pyRound (q : ℚ) : ℤ :=
  if q - (⌊q⌋ : ℚ) < 1 / 2 then ⌊q⌋
  else if 1 / 2 < q - (⌊q⌋ : ℚ) then ⌊q⌋ + 1
  else if ⌊q⌋ % 2 = 0 then ⌊q⌋ else ⌊q⌋ + 1

/-- The 4-tuple returned by `calculate_scaling`: current size, new scaled
size, `--fitimage` centering offsets, and the fractional error. -/
structure ScaleResult where
  yx_curr : ℕ × ℕ
  yx_new : ℤ × ℤ
  fitimage_offsets : ℤ × ℤ
  err_fraction : ℚ

/-- `calculate_scaling(image, disp_res, disp_res_list)` with the
configuration flags `args.fitimage` / `args.oneimage` made explicit
parameters.  Python float arithmetic is modelled with exact rationals and
`round` with `pyRound`. -/
def calculate_scaling (imgH imgW : ℕ) (disp : DispRect)
    (dispList : List DispRect) (fitimage oneimage : Bool) : ScaleResult :=
  let yx_curr : ℕ × ℕ := (imgH, imgW)
  let zoom_y : ℚ := (disp.h : ℚ) / (imgH : ℚ)
  let zoom_x : ℚ := (disp.w : ℚ) / (imgW : ℚ)
  let yx_exact_y : ℤ × ℤ := ((disp.h : ℤ), pyRound ((imgW : ℚ) * zoom_y))
  let yx_exact_x : ℤ × ℤ := (pyRound ((imgH : ℚ) * zoom_x), (disp.w : ℤ))
  let step : (ℤ × ℤ) × (ℤ × ℤ) × ℚ :=
    if fitimage then
      if yx_exact_y.2 > (disp.w : ℤ) then
        (yx_exact_x,
         (pyRound |((yx_exact_x.1 : ℚ) - (disp.h : ℚ)) / 2|, 0),
         ((disp.h : ℚ) - (yx_exact_x.1 : ℚ)) * (disp.w : ℚ) /
           ((disp.h : ℚ) * (disp.w : ℚ)))
      else
        (yx_exact_y,
         (0, pyRound |((yx_exact_y.2 : ℚ) - (disp.w : ℚ)) / 2|),
         ((disp.w : ℚ) - (yx_exact_y.2 : ℚ)) * (disp.h : ℚ) /
           ((disp.h : ℚ) * (disp.w : ℚ)))
    else
      let yx_new := if yx_exact_y.2 < (disp.w : ℤ) then yx_exact_x else yx_exact_y
      (yx_new, (0, 0),
       ((yx_new.1 : ℚ) - (disp.h : ℚ)) * (yx_new.2 : ℚ) /
           ((yx_new.1 : ℚ) * (yx_new.2 : ℚ)) +
         ((yx_new.2 : ℚ) - (disp.w : ℚ)) * (yx_new.1 : ℚ) /
           ((yx_new.1 : ℚ) * (yx_new.2 : ℚ)))
  let err : ℚ :=
    if oneimage then
      let total : ℚ := ((dispList.map (fun d => d.h * d.w)).sum : ℕ)
      |(step.1.1 : ℚ) * (step.1.2 : ℚ) - total| / total
    else step.2.2
  ⟨yx_curr, step.1, step.2.1, err⟩

/-- The bounding-box computation at the top of `create_giant_image`:
`max_y = max([i[0] + i[2] for i in disp_res_list])` and
`max_x = max([i[1] + i[3] for i in disp_res_list])`.  The Python `max` builtin raises
`ValueError` on an empty sequence, modelled as `none`. -/
def boundingBox (l : List DispRect) : Option (ℕ × ℕ) :=
  match l with
  | [] => none
  | _ :: _ => some ((l.map (fun i => i.h + i.yoff)).foldl max 0,
                    (l.map (fun i => i.w + i.xoff)).foldl max 0)

/-- The `--percenterror` acceptance test of `get_next_background_image`:
the candidate is rejected (`continue`) exactly when
`err_fraction > args.percenterror[0] / 100`, where `err_fraction` is the
fourth component of `calculate_scaling(bg_image, disp_res, disp_res_list)`
for the single display rect `disp_res` passed to the call. -/
def accept_image (thr : ℚ) (imgH imgW : ℕ) (disp : DispRect)
    (dispList : List DispRect) (fitimage oneimage : Bool) : Bool :=
  if (calculate_scaling imgH imgW disp dispList fitimage oneimage).err_fraction
      > thr / 100 then false else true

/-- Modelled from the spec (refinement reference for claim C8, not from the
source): the acceptance test as the spec sentence describes it, computing
the scaling plan "against the union of `allTargetRects`", i.e. against the
bounding box of all display rects instead of the single display rect. -/
def accept_image_spec (thr : ℚ) (imgH imgW : ℕ)
    (dispList : List DispRect) (fitimage oneimage : Bool) : Bool :=
  match boundingBox dispList with
  | some (bh, bw) =>
    if (calculate_scaling imgH imgW ⟨bh, bw, 0, 0⟩ dispList fitimage
          oneimage).err_fraction > thr / 100 then false else true
  | none => true

/-- A numpy block assignment
`base[ylo:yhi, xlo:xhi] = src[sy:sy+(yhi-ylo), sx:sx+(xhi-xlo)]`
restricted to the in-bounds, shape-matching case used by
`correct_windows_origin` (all four of its block shapes match exactly). -/
def assignBlock (base : ℕ → ℕ → ℕ) (src : ℕ → ℕ → ℕ)
    (ylo yhi xlo xhi sy sx : ℕ) : ℕ → ℕ → ℕ := fun y x =>
  if ylo ≤ y ∧ y < yhi ∧ xlo ≤ x ∧ x < xhi then
    src (sy + (y - ylo)) (sx + (x - xlo))
  else base y x

/-- `correct_windows_origin(image)` with the global
`yx_primary_window_origin = (y0, x0)` made an explicit parameter.  A fresh
raster (`np.empty_like`) is filled by the four quadrant block assignments in
source order; the `np.empty` contents are modelled by the arbitrary value 0
(they are never visible when the quadrants tile the canvas). -/
def correct_windows_origin (img : NDImage) (y0 x0 : ℕ) : NDImage :=
  let imHighY := img.h
  let imHighX := img.w
  let p1 := assignBlock (fun _ _ => 0) img.pix
      (imHighY - y0) imHighY (imHighX - x0) imHighX 0 0
  let p2 := assignBlock p1 img.pix
      0 (imHighY - y0) 0 (imHighX - x0) y0 x0
  let p3 := assignBlock p2 img.pix
      0 (imHighY - y0) (imHighX - x0) imHighX y0 0
  let p4 := assignBlock p3 img.pix
      (imHighY - y0) imHighY 0 (imHighX - x0) 0 x0
  ⟨imHighY, imHighX, p4⟩

/-- The acceptability predicate for one candidate filename: it decodes as
an image (`Image.open` + RGB conversion succeed, modelled by the oracle
`decode`) and, when `--percenterror` is configured, passes the error test
(modelled by `accept`, instantiated with `accept_image` in real runs; when
the option is off, `accept` is constantly `true`). -/
def acceptableFile {α : Type} (decode : String → Option α)
    (accept : α → Bool) (name : String) : Prop :=
  ∃ img, decode name = some img ∧ accept img = true

instance {α : Type} (decode : String → Option α) (accept : α → Bool)
    (name : String) : Decidable (acceptableFile decode accept name) := by
  unfold acceptableFile
  match decode name with
  | none => exact .isFalse (by simp)
  | some img => exact decidable_of_iff (accept img = true) (by simp)

/-- One pass of the `while True` loop of `get_next_background_image` over a
working index list, until either a candidate is selected or the index list
is exhausted.  `indices` is the call-local `background_indices`; `files` is
the current `all_background_files`; `seq` is `args.sequential`; `rnd t`
models the value of the `t`-th call to `random.randint` (used modulo the
current length, which ranges over exactly the values `randint(0, len-1)`
can produce).  Returns the popped pool index, the filename and the decoded
image of the first acceptable candidate, or `none` when the indices ran
out. -/
def selectPass {α : Type} (decode : String → Option α) (accept : α → Bool)
    (rnd : ℕ → ℕ) (seq : Bool) (files : List String) :
    List ℕ → ℕ → Option (ℕ × String × α)
  | [], _ => none
  | i0 :: rest0, t =>
    let indices := i0 :: rest0
    let k := if seq then 0 else rnd t % indices.length
    let fileIndex := indices.getD k 0
    let rest := indices.eraseIdx k
    let selectedFilename := files.getD fileIndex ""
    match decode selectedFilename with
    | none => selectPass decode accept rnd seq files rest (t + 1)
    | some img =>
      if accept img then some (fileIndex, selectedFilename, img)
      else selectPass decode accept rnd seq files rest (t + 1)
  termination_by indices _ => indices.length
  decreasing_by
    all_goals
      simp only [rest, indices, k, List.length_eraseIdx, List.length_cons]
      split
      · rw [if_pos (Nat.succ_pos _)]
        omega
      · have hm : rnd t % (rest0.length + 1) < rest0.length + 1 :=
          Nat.mod_lt _ (by omega)
        rw [if_pos hm]
        omega

/-- `get_next_background_image(disp_res, disp_res_list)` with its external
collaborators made explicit: `files0` is the global
`all_background_files` at entry, `reloadFiles` the list that
`reload_background_files()` would return, `decode` the image decoder and
`accept` the `--percenterror` test.  Returns the call outcome, the final
state of the global `all_background_files`, and the number of times the
pool was reloaded during the call.  The outcome is `.ok (some (filename,
image))` on success and `.ok none` for the `return ()` path; when the
working index set is exhausted and the reload produces an empty list, the
source does not reach `return ()`: it falls through, in the same loop
iteration, to `background_indices.pop(0)` (sequential) or
`random.randint(0, len(background_indices) - 1)` = `randint(0, -1)`
(random) on the empty index list and raises IndexError/ValueError —
modelled as `.error ()`, with the pool already replaced by the reload. -/
def get_next_background_image {α : Type} (decode : String → Option α)
    (accept : α → Bool) (rnd : ℕ → ℕ) (seq : Bool)
    (files0 reloadFiles : List String) :
    Except Unit (Option (String × α)) × List String × ℕ :=
  match selectPass decode accept rnd seq files0
      (List.range files0.length) 0 with
  | some (fi, name, img) => (.ok (some (name, img)), files0.eraseIdx fi, 0)
  | none =>
    if reloadFiles.length = 0 then (.error (), reloadFiles, 1)
    else
      match selectPass decode accept rnd seq reloadFiles
          (List.range reloadFiles.length) files0.length with
      | some (fi, name, img) =>
        (.ok (some (name, img)), reloadFiles.eraseIdx fi, 1)
      | none => (.ok none, reloadFiles, 1)

/-- The version of `all_background_files` from which
`get_next_background_image` deletes on success: the entry list at call
time when no reload happened, and the reloaded list otherwise. -/
def activePool {α : Type} (decode : String → Option α) (accept : α → Bool)
    (rnd : ℕ → ℕ) (seq : Bool) (files0 reloadFiles : List String) :
    List String :=
  if (get_next_background_image decode accept rnd seq files0 reloadFiles).2.2
      = 0 then files0 else reloadFiles

/-! ## Helper lemmas -/

theorem le_foldl_max (l : List ℕ) (a : ℕ) : a ≤ l.foldl max a := by
  induction l generalizing a with
  | nil => exact le_rfl
  | cons b tl ih => exact le_trans (Nat.le_max_left a b) (ih (max a b))

theorem mem_le_foldl_max (l : List ℕ) (a x : ℕ) (hx : x ∈ l) :
    x ≤ l.foldl max a := by
  induction l generalizing a with
  | nil => cases hx
  | cons b tl ih =>
    rcases List.mem_cons.1 hx with h | h
    · subst h
      exact le_trans (Nat.le_max_right a x) (le_foldl_max tl (max a x))
    · exact ih (max a b) h

theorem foldl_max_eq_or_mem (l : List ℕ) (a : ℕ) :
    l.foldl max a = a ∨ l.foldl max a ∈ l := by
  induction l generalizing a with
  | nil => exact Or.inl rfl
  | cons b tl ih =>
    simp only [List.foldl_cons]
    rcases ih (max a b) with h | h
    · rw [h]
      rcases max_choice a b with hm | hm
      · exact Or.inl hm
      · exact Or.inr (by rw [hm]; exact List.mem_cons_self _ _)
    · exact Or.inr (List.mem_cons_of_mem _ h)

/-! ## Claim theorems -/

/-- C1: the claim states that `copy_subimage` never raises for arbitrary
(including negative or beyond-bounds) starts and extents, matching the
source docstring "any out-of-range copy operations are silently ignored".
The code violates this: when a start exceeds the corresponding shape, the
bounds check first zeroes the extent but the very next check then sets it
to `shape - start < 0`, and the resulting numpy assignment pairs a
nonempty destination slice with an empty source slice, raising a broadcast
`ValueError`.  This theorem evaluates the embedding at such a failing
input (src 10x10, dst 20x20, extents (4,4), srcStart (15,0), dstStart
(0,0)): the call raises (`none`) instead of degrading to a clipped copy. -/
theorem copy_subimage_raises_on_beyond_bounds_start :
    copy_subimage (4, 4) ⟨10, 10, fun _ _ => 1⟩ (15, 0)
      ⟨20, 20, fun _ _ => 0⟩ (0, 0) = none := rfl

/-- C5: the bounding box over a display list has height
`max(yOffset + height)` and width `max(xOffset + width)`, hence bounds
every individual `offset+size`, and the maxima are attained; on the empty
list the operation fails (`ValueError` from the Python `max` builtin, named
`EmptyLayout` in the spec) rather than returning a size. -/
theorem boundingBox_max_characterization :
    boundingBox ([] : List DispRect) = none ∧
    ∀ (l : List DispRect) (bh bw : ℕ), boundingBox l = some (bh, bw) →
      (∀ r ∈ l, r.yoff + r.h ≤ bh ∧ r.xoff + r.w ≤ bw) ∧
      (∃ r ∈ l, r.yoff + r.h = bh) ∧ (∃ r ∈ l, r.xoff + r.w = bw) := by
  constructor
  · rfl
  · intro l bh bw hbb
    match l, hbb with
    | r0 :: tl, hbb =>
      simp only [boundingBox, Option.some.injEq, Prod.mk.injEq] at hbb
      obtain ⟨hbh, hbw⟩ := hbb
      subst hbh
      subst hbw
      refine ⟨?_, ?_, ?_⟩
      · intro r hr
        constructor
        · rw [Nat.add_comm]
          exact mem_le_foldl_max _ 0 _ (List.mem_map_of_mem _ hr)
        · rw [Nat.add_comm]
          exact mem_le_foldl_max _ 0 _ (List.mem_map_of_mem _ hr)
      · rcases foldl_max_eq_or_mem ((r0 :: tl).map (fun i => i.h + i.yoff)) 0 with
          h | h
        · refine ⟨r0, List.mem_cons_self _ _, ?_⟩
          have h0 : r0.h + r0.yoff ≤
              ((r0 :: tl).map (fun i => i.h + i.yoff)).foldl max 0 :=
            mem_le_foldl_max _ 0 _ (List.mem_map_of_mem _ (List.mem_cons_self _ _))
          omega
        · rcases List.mem_map.1 h with ⟨r, hr, hv⟩
          exact ⟨r, hr, by rw [← hv, Nat.add_comm]⟩
      · rcases foldl_max_eq_or_mem ((r0 :: tl).map (fun i => i.w + i.xoff)) 0 with
          h | h
        · refine ⟨r0, List.mem_cons_self _ _, ?_⟩
          have h0 : r0.w + r0.xoff ≤
              ((r0 :: tl).map (fun i => i.w + i.xoff)).foldl max 0 :=
            mem_le_foldl_max _ 0 _ (List.mem_map_of_mem _ (List.mem_cons_self _ _))
          omega
        · rcases List.mem_map.1 h with ⟨r, hr, hv⟩
          exact ⟨r, hr, by rw [← hv, Nat.add_comm]⟩

/-- C5 witness: the characterization applied to a concrete two-display
layout. -/
theorem boundingBox_max_characterization_witness :
    (∀ r ∈ [(⟨768, 1024, 0, 0⟩ : DispRect), ⟨768, 1024, 0, 1024⟩],
      r.yoff + r.h ≤ 768 ∧ r.xoff + r.w ≤ 2048) ∧
    (∃ r ∈ [(⟨768, 1024, 0, 0⟩ : DispRect), ⟨768, 1024, 0, 1024⟩],
      r.yoff + r.h = 768) ∧
    (∃ r ∈ [(⟨768, 1024, 0, 0⟩ : DispRect), ⟨768, 1024, 0, 1024⟩],
      r.xoff + r.w = 2048) :=
  boundingBox_max_characterization.2
    [⟨768, 1024, 0, 0⟩, ⟨768, 1024, 0, 1024⟩] 768 2048 rfl

theorem shift_coord (y y0 n : ℕ) (hy : y < n) (h0 : y0 ≤ n) :
    (((y : ℤ) - y0) % (n : ℤ)).toNat
      = if y0 ≤ y then y - y0 else y + n - y0 := by
  by_cases hcase : y0 ≤ y
  · rw [if_pos hcase, Int.emod_eq_of_lt (by omega) (by omega)]
    omega
  · rw [if_neg hcase]
    have hshift : ((y : ℤ) - y0) % (n : ℤ) = ((y : ℤ) - y0 + n) % (n : ℤ) := by
      have hm := Int.add_mul_emod_self_left ((y : ℤ) - y0) (n : ℤ) 1
      rw [mul_one] at hm
      exact hm.symm
    rw [hshift, Int.emod_eq_of_lt (by omega) (by omega)]
    omega

/-- C3: `correct_windows_origin` on an `H × W` canvas with primary-origin
offset `(y0, x0)`, `y0 ≤ H`, `x0 ≤ W`, returns a raster of identical shape
in which the output pixel at `((y - y0) mod H, (x - x0) mod W)` equals the
input pixel at `(y, x)` for every in-range `(y, x)`: the four quadrants
tile the result exactly, a 2D circular shift by `(-y0, -x0)`. -/
theorem correct_windows_origin_is_circular_shift (img : NDImage) (y0 x0 : ℕ)
    (hy0 : y0 ≤ img.h) (hx0 : x0 ≤ img.w) :
    (correct_windows_origin img y0 x0).h = img.h ∧
    (correct_windows_origin img y0 x0).w = img.w ∧
    ∀ y x : ℕ, y < img.h → x < img.w →
      (correct_windows_origin img y0 x0).pix
          ((((y : ℤ) - y0) % (img.h : ℤ)).toNat)
          ((((x : ℤ) - x0) % (img.w : ℤ)).toNat)
        = img.pix y x := by
  refine ⟨rfl, rfl, ?_⟩
  intro y x hy hx
  rw [shift_coord y y0 img.h hy hy0, shift_coord x x0 img.w hx hx0]
  simp only [correct_windows_origin, assignBlock]
  by_cases hcy : y0 ≤ y <;> by_cases hcx : x0 ≤ x <;>
    simp only [hcy, hcx, if_pos, if_neg, if_true, if_false]
  · -- y ≥ y0, x ≥ x0: lands in the "bottom right" block (second assignment)
    have c4 : ¬(img.h - y0 ≤ y - y0 ∧ y - y0 < img.h ∧ x - x0 < img.w - x0) := by
      omega
    have c3 : ¬(y - y0 < img.h - y0 ∧ img.w - x0 ≤ x - x0 ∧ x - x0 < img.w) := by
      omega
    have c2 : y - y0 < img.h - y0 ∧ x - x0 < img.w - x0 := by omega
    split_ifs with h4 h3 h2 <;> try omega
    congr 1 <;> omega
  · -- y ≥ y0, x < x0: lands in the "bottom left" block (third assignment)
    split_ifs with h4 h3 h2 <;> try omega
    congr 1 <;> omega
  · -- y < y0, x ≥ x0: lands in the "top right" block (fourth assignment)
    split_ifs with h4 h3 h2 <;> try omega
    congr 1 <;> omega
  · -- y < y0, x < x0: lands in the "top left" block (first assignment)
    split_ifs with h4 h3 h2 <;> try omega
    congr 1 <;> omega

/-- C3 witness: the shift theorem applied to a concrete 3x2 raster with
origin offset (1, 1). -/
theorem correct_windows_origin_is_circular_shift_witness :
    (correct_windows_origin ⟨3, 2, fun y x => 10 * y + x⟩ 1 1).pix 1 0
      = 10 * 2 + 1 := by
  have h := (correct_windows_origin_is_circular_shift
      ⟨3, 2, fun y x => 10 * y + x⟩ 1 1 (by decide) (by decide)).2.2 2 1
      (by decide) (by decide)
  norm_num at h
  exact h

theorem le_pyRound (q : ℚ) : q - 1 / 2 ≤ (pyRound q : ℚ) := by
  unfold pyRound
  have hfl : (⌊q⌋ : ℚ) ≤ q := Int.floor_le q
  have hfu : q < (⌊q⌋ : ℚ) + 1 := Int.lt_floor_add_one q
  split_ifs with h1 h2 h3 <;> push_cast <;> linarith

theorem pyRound_le (q : ℚ) : (pyRound q : ℚ) ≤ q + 1 / 2 := by
  unfold pyRound
  have hfl : (⌊q⌋ : ℚ) ≤ q := Int.floor_le q
  have hfu : q < (⌊q⌋ : ℚ) + 1 := Int.lt_floor_add_one q
  split_ifs with h1 h2 h3 <;> push_cast <;> linarith

theorem pyRound_nonneg (q : ℚ) (hq : 0 ≤ q) : 0 ≤ pyRound q := by
  unfold pyRound
  have hfl : (0 : ℤ) ≤ ⌊q⌋ := Int.floor_nonneg.2 hq
  split_ifs <;> omega

theorem pyRound_switch_ge (imgH imgW dh dw : ℕ) (h1 : 0 < imgH)
    (h2 : 0 < imgW) (h3 : 0 < dh) (h4 : 0 < dw)
    (hb : pyRound ((imgW : ℚ) * ((dh : ℚ) / (imgH : ℚ))) < (dw : ℤ)) :
    (dh : ℤ) ≤ pyRound ((imgH : ℚ) * ((dw : ℚ) / (imgW : ℚ))) := by
  have hH : (0 : ℚ) < (imgH : ℚ) := by exact_mod_cast h1
  have hW : (0 : ℚ) < (imgW : ℚ) := by exact_mod_cast h2
  have hx1 : (imgW : ℚ) * ((dh : ℚ) / (imgH : ℚ)) ≤ (dw : ℚ) - 1 / 2 := by
    have hcast : (pyRound ((imgW : ℚ) * ((dh : ℚ) / (imgH : ℚ))) : ℚ)
        ≤ (dw : ℚ) - 1 := by
      have : pyRound ((imgW : ℚ) * ((dh : ℚ) / (imgH : ℚ))) ≤ (dw : ℤ) - 1 := by
        omega
      exact_mod_cast this
    linarith [le_pyRound ((imgW : ℚ) * ((dh : ℚ) / (imgH : ℚ)))]
  have hmul : (imgW : ℚ) * (dh : ℚ) ≤ ((dw : ℚ) - 1 / 2) * (imgH : ℚ) := by
    rw [mul_div_assoc'] at hx1
    exact (div_le_iff₀ hH).1 hx1
  have hx2 : (dh : ℚ) < (imgH : ℚ) * ((dw : ℚ) / (imgW : ℚ)) := by
    rw [mul_div_assoc']
    rw [lt_div_iff₀ hW]
    nlinarith
  have hkey : ((dh : ℚ) : ℚ) - 1 / 2
      < (pyRound ((imgH : ℚ) * ((dw : ℚ) / (imgW : ℚ))) : ℚ) := by
    linarith [le_pyRound ((imgH : ℚ) * ((dw : ℚ) / (imgW : ℚ)))]
  by_contra hcon
  have : (pyRound ((imgH : ℚ) * ((dw : ℚ) / (imgW : ℚ))) : ℚ) ≤ (dh : ℚ) - 1 := by
    have : pyRound ((imgH : ℚ) * ((dw : ℚ) / (imgW : ℚ))) ≤ (dh : ℤ) - 1 := by
      omega
    exact_mod_cast this
  linarith

theorem pyRound_switch_le (imgH imgW dh dw : ℕ) (h1 : 0 < imgH)
    (h2 : 0 < imgW) (h3 : 0 < dh) (h4 : 0 < dw)
    (hb : (dw : ℤ) < pyRound ((imgW : ℚ) * ((dh : ℚ) / (imgH : ℚ)))) :
    pyRound ((imgH : ℚ) * ((dw : ℚ) / (imgW : ℚ))) ≤ (dh : ℤ) := by
  have hH : (0 : ℚ) < (imgH : ℚ) := by exact_mod_cast h1
  have hW : (0 : ℚ) < (imgW : ℚ) := by exact_mod_cast h2
  have hx1 : (dw : ℚ) + 1 / 2 ≤ (imgW : ℚ) * ((dh : ℚ) / (imgH : ℚ)) := by
    have hcast : (dw : ℚ) + 1
        ≤ (pyRound ((imgW : ℚ) * ((dh : ℚ) / (imgH : ℚ))) : ℚ) := by
      have : (dw : ℤ) + 1 ≤ pyRound ((imgW : ℚ) * ((dh : ℚ) / (imgH : ℚ))) := by
        omega
      exact_mod_cast this
    linarith [pyRound_le ((imgW : ℚ) * ((dh : ℚ) / (imgH : ℚ)))]
  have hmul : ((dw : ℚ) + 1 / 2) * (imgH : ℚ) ≤ (imgW : ℚ) * (dh : ℚ) := by
    rw [mul_div_assoc'] at hx1
    exact (le_div_iff₀ hH).1 hx1
  have hx2 : (imgH : ℚ) * ((dw : ℚ) / (imgW : ℚ)) < (dh : ℚ) := by
    rw [mul_div_assoc']
    rw [div_lt_iff₀ hW]
    nlinarith
  have hkey : (pyRound ((imgH : ℚ) * ((dw : ℚ) / (imgW : ℚ))) : ℚ)
      < (dh : ℚ) + 1 / 2 := by
    linarith [pyRound_le ((imgH : ℚ) * ((dw : ℚ) / (imgW : ℚ)))]
  by_contra hcon
  have : ((dh : ℚ) : ℚ) + 1 ≤ (pyRound ((imgH : ℚ) * ((dw : ℚ) / (imgW : ℚ))) : ℚ) := by
    have : (dh : ℤ) + 1 ≤ pyRound ((imgH : ℚ) * ((dw : ℚ) / (imgW : ℚ))) := by
      omega
    exact_mod_cast this
  linarith

theorem calculate_scaling_yx_new_fill (imgH imgW : ℕ) (disp : DispRect)
    (L : List DispRect) (one : Bool) :
    (calculate_scaling imgH imgW disp L false one).yx_new
      = if pyRound ((imgW : ℚ) * ((disp.h : ℚ) / (imgH : ℚ))) < (disp.w : ℤ)
        then (pyRound ((imgH : ℚ) * ((disp.w : ℚ) / (imgW : ℚ))), (disp.w : ℤ))
        else ((disp.h : ℤ), pyRound ((imgW : ℚ) * ((disp.h : ℚ) / (imgH : ℚ)))) := by
  simp only [calculate_scaling, Bool.false_eq_true, if_false]

theorem calculate_scaling_yx_new_fit (imgH imgW : ℕ) (disp : DispRect)
    (L : List DispRect) (one : Bool) :
    (calculate_scaling imgH imgW disp L true one).yx_new
      = if pyRound ((imgW : ℚ) * ((disp.h : ℚ) / (imgH : ℚ))) > (disp.w : ℤ)
        then (pyRound ((imgH : ℚ) * ((disp.w : ℚ) / (imgW : ℚ))), (disp.w : ℤ))
        else ((disp.h : ℤ), pyRound ((imgW : ℚ) * ((disp.h : ℚ) / (imgH : ℚ)))) := by
  simp only [calculate_scaling, if_true]
  split_ifs <;> rfl

/-- C2: under the fill policy (`fitimage` and `oneimage` both off), the
target size chosen by `calculate_scaling` covers the display rect in both
dimensions: height ≥ display height and width ≥ display width, despite
the rounding of the non-exact dimension. -/
theorem calculate_scaling_fill_covers (imgH imgW : ℕ) (disp : DispRect)
    (L : List DispRect) (h1 : 0 < imgH) (h2 : 0 < imgW)
    (h3 : 0 < disp.h) (h4 : 0 < disp.w) :
    (disp.h : ℤ) ≤ (calculate_scaling imgH imgW disp L false false).yx_new.1 ∧
    (disp.w : ℤ) ≤ (calculate_scaling imgH imgW disp L false false).yx_new.2 := by
  rw [calculate_scaling_yx_new_fill]
  split_ifs with hc
  · exact ⟨pyRound_switch_ge imgH imgW disp.h disp.w h1 h2 h3 h4 hc, le_rfl⟩
  · exact ⟨le_rfl, le_of_not_lt hc⟩

/-- C2 witness: a 600x800 image on a 1080x1920 display scales to
(1440, 1920), covering the display. -/
theorem calculate_scaling_fill_covers_witness :
    ((0 : ℕ) < 600 ∧ (0 : ℕ) < 800 ∧
      (0 : ℕ) < (DispRect.mk 1080 1920 0 0).h ∧
      (0 : ℕ) < (DispRect.mk 1080 1920 0 0).w) ∧
    (((DispRect.mk 1080 1920 0 0).h : ℤ)
        ≤ (calculate_scaling 600 800 ⟨1080, 1920, 0, 0⟩ [] false false).yx_new.1 ∧
      ((DispRect.mk 1080 1920 0 0).w : ℤ)
        ≤ (calculate_scaling 600 800 ⟨1080, 1920, 0, 0⟩ [] false false).yx_new.2) :=
  ⟨⟨by decide, by decide, by decide, by decide⟩,
    calculate_scaling_fill_covers 600 800 ⟨1080, 1920, 0, 0⟩ []
      (by decide) (by decide) (by decide) (by decide)⟩

/-- C4: under the fit policy (`fitimage` on), the target size chosen by
`calculate_scaling` never overflows the display rect: height ≤ display
height and width ≤ display width, despite the rounding of the non-exact
dimension (`oneimage` does not affect the chosen size). -/
theorem calculate_scaling_fit_contains (imgH imgW : ℕ) (disp : DispRect)
    (L : List DispRect) (one : Bool) (h1 : 0 < imgH) (h2 : 0 < imgW)
    (h3 : 0 < disp.h) (h4 : 0 < disp.w) :
    (calculate_scaling imgH imgW disp L true one).yx_new.1 ≤ (disp.h : ℤ) ∧
    (calculate_scaling imgH imgW disp L true one).yx_new.2 ≤ (disp.w : ℤ) := by
  rw [calculate_scaling_yx_new_fit]
  split_ifs with hc
  · exact ⟨pyRound_switch_le imgH imgW disp.h disp.w h1 h2 h3 h4 hc, le_rfl⟩
  · exact ⟨le_rfl, le_of_not_lt hc⟩

/-- C4 witness: a 600x800 image on a 1080x1920 display under the fit
policy scales to (1080, 1440), inside the display. -/
theorem calculate_scaling_fit_contains_witness :
    ((0 : ℕ) < 600 ∧ (0 : ℕ) < 800 ∧
      (0 : ℕ) < (DispRect.mk 1080 1920 0 0).h ∧
      (0 : ℕ) < (DispRect.mk 1080 1920 0 0).w) ∧
    ((calculate_scaling 600 800 ⟨1080, 1920, 0, 0⟩ [] true false).yx_new.1
        ≤ ((DispRect.mk 1080 1920 0 0).h : ℤ) ∧
      (calculate_scaling 600 800 ⟨1080, 1920, 0, 0⟩ [] true false).yx_new.2
        ≤ ((DispRect.mk 1080 1920 0 0).w : ℤ)) :=
  ⟨⟨by decide, by decide, by decide, by decide⟩,
    calculate_scaling_fit_contains 600 800 ⟨1080, 1920, 0, 0⟩ [] false
      (by decide) (by decide) (by decide) (by decide)⟩

theorem calculate_scaling_err_fill (imgH imgW : ℕ) (disp : DispRect)
    (L : List DispRect) :
    (calculate_scaling imgH imgW disp L false false).err_fraction
      = (((calculate_scaling imgH imgW disp L false false).yx_new.1 : ℚ)
            - (disp.h : ℚ)) *
          ((calculate_scaling imgH imgW disp L false false).yx_new.2 : ℚ) /
          (((calculate_scaling imgH imgW disp L false false).yx_new.1 : ℚ) *
            ((calculate_scaling imgH imgW disp L false false).yx_new.2 : ℚ)) +
        (((calculate_scaling imgH imgW disp L false false).yx_new.2 : ℚ)
            - (disp.w : ℚ)) *
          ((calculate_scaling imgH imgW disp L false false).yx_new.1 : ℚ) /
          (((calculate_scaling imgH imgW disp L false false).yx_new.1 : ℚ) *
            ((calculate_scaling imgH imgW disp L false false).yx_new.2 : ℚ)) := by
  simp only [calculate_scaling, Bool.false_eq_true, if_false]

theorem calculate_scaling_err_fit (imgH imgW : ℕ) (disp : DispRect)
    (L : List DispRect) :
    (calculate_scaling imgH imgW disp L true false).err_fraction
      = if pyRound ((imgW : ℚ) * ((disp.h : ℚ) / (imgH : ℚ))) > (disp.w : ℤ)
        then ((disp.h : ℚ)
              - (pyRound ((imgH : ℚ) * ((disp.w : ℚ) / (imgW : ℚ))) : ℚ)) *
            (disp.w : ℚ) / ((disp.h : ℚ) * (disp.w : ℚ))
        else ((disp.w : ℚ)
              - (pyRound ((imgW : ℚ) * ((disp.h : ℚ) / (imgH : ℚ))) : ℚ)) *
            (disp.h : ℚ) / ((disp.h : ℚ) * (disp.w : ℚ)) := by
  simp only [calculate_scaling, eq_self_iff_true, if_true, Bool.false_eq_true,
    if_false]
  split_ifs <;> rfl

theorem calculate_scaling_err_oneimage (imgH imgW : ℕ) (disp : DispRect)
    (L : List DispRect) (fit : Bool) :
    (calculate_scaling imgH imgW disp L fit true).err_fraction
      = |((calculate_scaling imgH imgW disp L fit true).yx_new.1 : ℚ) *
            ((calculate_scaling imgH imgW disp L fit true).yx_new.2 : ℚ) -
            (((L.map (fun d => d.h * d.w)).sum : ℕ) : ℚ)| /
          (((L.map (fun d => d.h * d.w)).sum : ℕ) : ℚ) := by
  cases fit <;> simp only [calculate_scaling, Bool.false_eq_true, if_false,
    eq_self_iff_true, if_true]

/-- C7 (amended): for positive image and display dimensions the
`err_fraction` of `calculate_scaling` is never negative in any policy
configuration, and under the fill and fit policies (without the
single-combined-image override) it lies in `[0, 1]`.  (As stated the claim
is false: under `--oneimage` the metric `|area - total|/total` can exceed 1
arbitrarily, not merely by rounding; see the counterexample.) -/
theorem errFraction_nonneg_and_unit_interval (imgH imgW : ℕ)
    (disp : DispRect) (L : List DispRect) (fit one : Bool)
    (h1 : 0 < imgH) (h2 : 0 < imgW) (h3 : 0 < disp.h) (h4 : 0 < disp.w) :
    0 ≤ (calculate_scaling imgH imgW disp L fit one).err_fraction ∧
    (one = false →
      (calculate_scaling imgH imgW disp L fit one).err_fraction ≤ 1) := by
  have hHq : (0 : ℚ) < (disp.h : ℚ) := by exact_mod_cast h3
  have hWq : (0 : ℚ) < (disp.w : ℚ) := by exact_mod_cast h4
  cases one with
  | true =>
    refine ⟨?_, fun hcon => Bool.noConfusion hcon⟩
    rw [calculate_scaling_err_oneimage]
    exact div_nonneg (abs_nonneg _) (by positivity)
  | false =>
    cases fit with
    | false =>
      rw [calculate_scaling_err_fill, calculate_scaling_yx_new_fill]
      split_ifs with hc
      · have hn0 : (disp.h : ℤ)
            ≤ pyRound ((imgH : ℚ) * ((disp.w : ℚ) / (imgW : ℚ))) :=
          pyRound_switch_ge imgH imgW disp.h disp.w h1 h2 h3 h4 hc
        have hn0q : (disp.h : ℚ)
            ≤ (pyRound ((imgH : ℚ) * ((disp.w : ℚ) / (imgW : ℚ))) : ℚ) := by
          exact_mod_cast hn0
        have hn0pos : (0 : ℚ)
            < (pyRound ((imgH : ℚ) * ((disp.w : ℚ) / (imgW : ℚ))) : ℚ) :=
          lt_of_lt_of_le hHq hn0q
        push_cast
        simp only [sub_self, zero_mul, zero_div, add_zero]
        rw [mul_div_mul_right _ _ (ne_of_gt hWq)]
        constructor
        · exact div_nonneg (by linarith) (le_of_lt hn0pos)
        · intro _
          rw [div_le_one hn0pos]
          linarith
      · have hn1 : (disp.w : ℤ)
            ≤ pyRound ((imgW : ℚ) * ((disp.h : ℚ) / (imgH : ℚ))) :=
          le_of_not_lt hc
        have hn1q : (disp.w : ℚ)
            ≤ (pyRound ((imgW : ℚ) * ((disp.h : ℚ) / (imgH : ℚ))) : ℚ) := by
          exact_mod_cast hn1
        have hn1pos : (0 : ℚ)
            < (pyRound ((imgW : ℚ) * ((disp.h : ℚ) / (imgH : ℚ))) : ℚ) :=
          lt_of_lt_of_le hWq hn1q
        push_cast
        simp only [sub_self, zero_mul, zero_div, zero_add]
        rw [mul_comm ((pyRound ((imgW : ℚ) * ((disp.h : ℚ) / (imgH : ℚ))) : ℚ)
            - (disp.w : ℚ)) (disp.h : ℚ),
          mul_div_mul_left _ _ (ne_of_gt hHq)]
        constructor
        · exact div_nonneg (by linarith) (le_of_lt hn1pos)
        · intro _
          rw [div_le_one hn1pos]
          linarith
    | true =>
      rw [calculate_scaling_err_fit]
      split_ifs with hc
      · have hn0 : pyRound ((imgH : ℚ) * ((disp.w : ℚ) / (imgW : ℚ)))
            ≤ (disp.h : ℤ) :=
          pyRound_switch_le imgH imgW disp.h disp.w h1 h2 h3 h4 hc
        have hn0q : (pyRound ((imgH : ℚ) * ((disp.w : ℚ) / (imgW : ℚ))) : ℚ)
            ≤ (disp.h : ℚ) := by exact_mod_cast hn0
        have hn0nn : (0 : ℚ)
            ≤ (pyRound ((imgH : ℚ) * ((disp.w : ℚ) / (imgW : ℚ))) : ℚ) := by
          have := pyRound_nonneg ((imgH : ℚ) * ((disp.w : ℚ) / (imgW : ℚ)))
            (by positivity)
          exact_mod_cast this
        rw [mul_div_mul_right _ _ (ne_of_gt hWq)]
        constructor
        · exact div_nonneg (by linarith) (le_of_lt hHq)
        · intro _
          rw [div_le_one hHq]
          linarith
      · have hn1 : pyRound ((imgW : ℚ) * ((disp.h : ℚ) / (imgH : ℚ)))
            ≤ (disp.w : ℤ) := le_of_not_lt hc
        have hn1q : (pyRound ((imgW : ℚ) * ((disp.h : ℚ) / (imgH : ℚ))) : ℚ)
            ≤ (disp.w : ℚ) := by exact_mod_cast hn1
        have hn1nn : (0 : ℚ)
            ≤ (pyRound ((imgW : ℚ) * ((disp.h : ℚ) / (imgH : ℚ))) : ℚ) := by
          have := pyRound_nonneg ((imgW : ℚ) * ((disp.h : ℚ) / (imgH : ℚ)))
            (by positivity)
          exact_mod_cast this
        rw [mul_comm ((disp.w : ℚ)
            - (pyRound ((imgW : ℚ) * ((disp.h : ℚ) / (imgH : ℚ))) : ℚ))
            (disp.h : ℚ), mul_div_mul_left _ _ (ne_of_gt hHq)]
        constructor
        · exact div_nonneg (by linarith) (le_of_lt hWq)
        · intro _
          rw [div_le_one hWq]
          linarith

/-- C7 counterexample: a 1000x10 image against a single 100x1000 display
under `--oneimage` yields errorFraction 999, far outside `[0, 1]` and not
a slight rounding excess, refuting the claim as stated for the
single-combined-image override. -/
theorem errFraction_oneimage_exceeds_one :
    (calculate_scaling 1000 10 ⟨100, 1000, 0, 0⟩ [⟨100, 1000, 0, 0⟩]
        false true).err_fraction = 999 ∧ ¬((999 : ℚ) ≤ 1) := by
  constructor
  · rw [calculate_scaling_err_oneimage, calculate_scaling_yx_new_fill]
    norm_num [pyRound]
  · norm_num

/-- C7 witness: the bounds applied to a concrete fill-policy call. -/
theorem errFraction_nonneg_and_unit_interval_witness :
    ((0 : ℕ) < 600 ∧ (0 : ℕ) < 800 ∧
      (0 : ℕ) < (DispRect.mk 1080 1920 0 0).h ∧
      (0 : ℕ) < (DispRect.mk 1080 1920 0 0).w) ∧
    (0 ≤ (calculate_scaling 600 800 ⟨1080, 1920, 0, 0⟩ []
        false false).err_fraction ∧
      (false = false →
        (calculate_scaling 600 800 ⟨1080, 1920, 0, 0⟩ []
          false false).err_fraction ≤ 1)) :=
  ⟨⟨by decide, by decide, by decide, by decide⟩,
    errFraction_nonneg_and_unit_interval 600 800 ⟨1080, 1920, 0, 0⟩ []
      false false (by decide) (by decide) (by decide) (by decide)⟩

/-- C8 (amended): the `--percenterror` acceptance test of the selector accepts
a candidate exactly when `errorFraction * 100 ≤ threshold`, where the
errorFraction is the one `calculate_scaling` computes against the single
display rect `disp` passed to `get_next_background_image` (with the full
display list entering only through the `--oneimage` total-area metric) —
not against the bounding box of all display rects. -/
theorem accept_image_iff_err_le (thr : ℚ) (imgH imgW : ℕ) (disp : DispRect)
    (L : List DispRect) (fit one : Bool) :
    accept_image thr imgH imgW disp L fit one = true ↔
      (calculate_scaling imgH imgW disp L fit one).err_fraction * 100 ≤ thr := by
  unfold accept_image
  split_ifs with h
  · simp only [Bool.false_eq_true, false_iff]
    intro hcon
    rw [gt_iff_lt, div_lt_iff₀ (by norm_num : (0 : ℚ) < 100)] at h
    linarith
  · simp only [true_iff]
    have hle := le_of_not_lt h
    rw [le_div_iff₀ (by norm_num : (0 : ℚ) < 100)] at hle
    exact hle

/-- C8 counterexample: a 768x1024 image, displays
`[(768,1024,0,0), (768,1024,0,1024)]`, fill policy, `--oneimage`,
threshold 60%: the acceptance test of the code (scaling plan against the single
display rect passed for the display) accepts the candidate
(errorFraction 0.5), while the acceptance test the claim describes
(scaling plan against the union bounding box 768x2048) rejects it
(errorFraction 1.0). -/
theorem accept_image_differs_from_union_variant :
    accept_image 60 768 1024 ⟨768, 1024, 0, 0⟩
        [⟨768, 1024, 0, 0⟩, ⟨768, 1024, 0, 1024⟩] false true = true ∧
    accept_image_spec 60 768 1024
        [⟨768, 1024, 0, 0⟩, ⟨768, 1024, 0, 1024⟩] false true = false := by
  constructor
  · have herr : (calculate_scaling 768 1024 ⟨768, 1024, 0, 0⟩
        [⟨768, 1024, 0, 0⟩, ⟨768, 1024, 0, 1024⟩] false true).err_fraction
          = 1 / 2 := by
      rw [calculate_scaling_err_oneimage, calculate_scaling_yx_new_fill]
      norm_num [pyRound]
    simp only [accept_image, herr]
    norm_num
  · have herr : (calculate_scaling 768 1024 ⟨768, 2048, 0, 0⟩
        [⟨768, 1024, 0, 0⟩, ⟨768, 1024, 0, 1024⟩] false true).err_fraction
          = 1 := by
      rw [calculate_scaling_err_oneimage, calculate_scaling_yx_new_fill]
      norm_num [pyRound]
    have hbb : boundingBox [(⟨768, 1024, 0, 0⟩ : DispRect), ⟨768, 1024, 0, 1024⟩]
        = some (768, 2048) := by
      simp [boundingBox]
    simp only [accept_image_spec, hbb, herr]
    norm_num

theorem clampDim_writes_in_rect (e0 : ℤ) (fsh : ℕ) (fs : ℤ) (tsh : ℕ)
    (ts : ℤ) (he : 0 ≤ e0) (hts : 0 ≤ ts) (y : ℕ)
    (hok : pyIdx (fs + clampDim e0 fsh fs tsh ts) fsh - pyIdx fs fsh
             = pyIdx (ts + clampDim e0 fsh fs tsh ts) tsh - pyIdx ts tsh
           ∨ pyIdx (fs + clampDim e0 fsh fs tsh ts) fsh - pyIdx fs fsh = 1)
    (h1 : pyIdx ts tsh ≤ y)
    (h2 : y < pyIdx (ts + clampDim e0 fsh fs tsh ts) tsh) :
    ts ≤ (y : ℤ) ∧ (y : ℤ) < ts + clampDim e0 fsh fs tsh ts := by
  rcases lt_or_le (tsh : ℤ) ts with hA | hB
  · -- destination start beyond destination shape: the clamp drives the
    -- extent negative and the destination slice is empty
    have he4 : clampDim e0 fsh fs tsh ts = (tsh : ℤ) - ts := by
      simp only [clampDim]
      split_ifs <;> omega
    have hls : pyIdx ts tsh = tsh := by
      simp only [pyIdx]
      split_ifs <;> omega
    have hle : pyIdx (ts + clampDim e0 fsh fs tsh ts) tsh = tsh := by
      rw [he4]
      simp only [pyIdx]
      split_ifs <;> omega
    rw [hls] at h1
    rw [hle] at h2
    omega
  · rcases lt_or_le (fsh : ℤ) fs with hB1 | hB2
    · -- source start beyond source shape: the clamp drives the extent
      -- negative, the source slice is empty, so the numpy success
      -- condition forces an empty destination slice as well
      have he4 : clampDim e0 fsh fs tsh ts = (fsh : ℤ) - fs := by
        simp only [clampDim]
        split_ifs <;> omega
      have hrs : pyIdx fs fsh = fsh := by
        simp only [pyIdx]
        split_ifs <;> omega
      have hre : pyIdx (fs + clampDim e0 fsh fs tsh ts) fsh = fsh := by
        rw [he4]
        simp only [pyIdx]
        split_ifs <;> omega
      rw [hrs, hre] at hok
      omega
    · -- both starts within shape: the clamped extent is non-negative and
      -- the destination slice is exactly the clamped rectangle
      have heNN : 0 ≤ clampDim e0 fsh fs tsh ts ∧
          ts + clampDim e0 fsh fs tsh ts ≤ (tsh : ℤ) := by
        simp only [clampDim]
        split_ifs <;> omega
      have hls : (pyIdx ts tsh : ℤ) = ts := by
        simp only [pyIdx]
        split_ifs <;> omega
      have hle : (pyIdx (ts + clampDim e0 fsh fs tsh ts) tsh : ℤ)
          = ts + clampDim e0 fsh fs tsh ts := by
        simp only [pyIdx]
        split_ifs <;> omega
      omega

/-- C10 (amended): for non-negative requested extents and non-negative
destination start coordinates, `copy_subimage` either raises (mutating
nothing) or mutates only destination pixels inside the clamped destination
rectangle `[dstStart, dstStart + clampedExtent)`; every destination pixel
outside that rectangle keeps its value, the destination shape is
unchanged, and the source raster (a pure input of the model) is never
written.  (As stated over arbitrary, possibly negative, starts the claim
is false: negative starts wrap around numpy-style and the call can mutate
pixels outside the stated rectangle; see the counterexample.) -/
theorem copy_subimage_frame (ext : ℤ × ℤ) (fromImg toImg : NDImage)
    (fstart tstart : ℤ × ℤ) (h1 : 0 ≤ ext.1) (h2 : 0 ≤ ext.2)
    (h3 : 0 ≤ tstart.1) (h4 : 0 ≤ tstart.2) (y x : ℕ)
    (hout : ¬ inClampedRect ext fromImg fstart toImg tstart y x) :
    ((copy_subimage ext fromImg fstart toImg tstart).getD toImg).h
        = toImg.h ∧
    ((copy_subimage ext fromImg fstart toImg tstart).getD toImg).w
        = toImg.w ∧
    ((copy_subimage ext fromImg fstart toImg tstart).getD toImg).pix y x
        = toImg.pix y x := by
  rcases hco : copy_subimage ext fromImg fstart toImg tstart with _ | t
  · exact ⟨rfl, rfl, rfl⟩
  · simp only [Option.getD_some]
    simp only [copy_subimage] at hco
    split at hco
    · rename_i hok
      obtain rfl : t = ⟨toImg.h, toImg.w,
          copiedPix ext fromImg toImg fstart tstart⟩ :=
        (Option.some.inj hco).symm
      refine ⟨rfl, rfl, ?_⟩
      show copiedPix ext fromImg toImg fstart tstart y x = toImg.pix y x
      unfold copiedPix
      rw [if_neg]
      rintro ⟨hy1, hy2, hx1, hx2⟩
      exact hout
        ⟨(clampDim_writes_in_rect ext.1 fromImg.h fstart.1 toImg.h tstart.1
            h1 h3 y hok.1 hy1 hy2).1,
          (clampDim_writes_in_rect ext.1 fromImg.h fstart.1 toImg.h tstart.1
            h1 h3 y hok.1 hy1 hy2).2,
          (clampDim_writes_in_rect ext.2 fromImg.w fstart.2 toImg.w tstart.2
            h2 h4 x hok.2 hx1 hx2).1,
          (clampDim_writes_in_rect ext.2 fromImg.w fstart.2 toImg.w tstart.2
            h2 h4 x hok.2 hx1 hx2).2⟩
    · exact absurd hco (by simp)

/-- C10 counterexample: with the negative destination start `(-5, 0)` the
request wraps numpy-style: the call succeeds and overwrites destination
pixel `(5, 0)` (value 1 copied from the source, original value 0) even
though `(5, 0)` is not inside the claimed clamped destination rectangle
`[dstStart, dstStart + clampedExtent) = [-5, -2) x [0, 3)`, so the claim
as stated over arbitrary out-of-range starts is false. -/
theorem copy_subimage_mutates_beyond_clamped_rect :
    ((copy_subimage (3, 3) ⟨10, 10, fun _ _ => 1⟩ (0, 0)
        ⟨10, 10, fun _ _ => 0⟩ (-5, 0)).map (fun t => t.pix 5 0))
      = some 1 ∧
    NDImage.pix ⟨10, 10, fun _ _ => 0⟩ 5 0 = 0 ∧
    ¬ inClampedRect (3, 3) ⟨10, 10, fun _ _ => 1⟩ (0, 0)
        ⟨10, 10, fun _ _ => 0⟩ (-5, 0) 5 0 :=
  ⟨rfl, rfl, by decide⟩

/-- C10 witness: the frame property applied to a concrete in-range copy:
a 2x2 block copied to (1,1) of a 4x4 raster leaves pixel (3,3) unchanged. -/
theorem copy_subimage_frame_witness :
    ((0 : ℤ) ≤ 2 ∧ (0 : ℤ) ≤ 2 ∧ (0 : ℤ) ≤ 1 ∧ (0 : ℤ) ≤ 1 ∧
      ¬ inClampedRect (2, 2) ⟨4, 4, fun _ _ => 7⟩ (0, 0)
          ⟨4, 4, fun _ _ => 9⟩ (1, 1) 3 3) ∧
    ((copy_subimage (2, 2) ⟨4, 4, fun _ _ => 7⟩ (0, 0)
          ⟨4, 4, fun _ _ => 9⟩ (1, 1)).getD ⟨4, 4, fun _ _ => 9⟩).pix 3 3
      = NDImage.pix ⟨4, 4, fun _ _ => 9⟩ 3 3 :=
  ⟨⟨by decide, by decide, by decide, by decide, by decide⟩,
    (copy_subimage_frame (2, 2) ⟨4, 4, fun _ _ => 7⟩ ⟨4, 4, fun _ _ => 9⟩
      (0, 0) (1, 1) (by decide) (by decide) (by decide) (by decide) 3 3
      (by decide)).2.2⟩

theorem mem_eq_getD_or_mem_eraseIdx (l : List ℕ) (k : ℕ) (hk : k < l.length)
    (i : ℕ) (hi : i ∈ l) : i = l.getD k 0 ∨ i ∈ l.eraseIdx k := by
  induction l generalizing k with
  | nil => cases hi
  | cons a tl ih =>
    cases k with
    | zero => simpa using List.mem_cons.1 hi
    | succ k =>
      rcases List.mem_cons.1 hi with h | h
      · subst h
        right
        simp [List.eraseIdx_cons_succ]
      · rcases ih k (by simpa using Nat.lt_of_succ_lt_succ hk) h with h2 | h2
        · left
          simpa using h2
        · right
          simp [List.eraseIdx_cons_succ, h2]

theorem getD_mem_of_lt (l : List ℕ) (k : ℕ) (hk : k < l.length) :
    l.getD k 0 ∈ l := by
  rw [List.getD_eq_getElem l 0 hk]
  exact List.getElem_mem hk

theorem selectPass_eq_none_iff {α : Type} (decode : String → Option α)
    (accept : α → Bool) (rnd : ℕ → ℕ) (seq : Bool) (files : List String) :
    ∀ (n : ℕ) (indices : List ℕ) (t : ℕ), indices.length = n →
      (selectPass decode accept rnd seq files indices t = none ↔
        ∀ i ∈ indices, ¬ acceptableFile decode accept (files.getD i "")) := by
  intro n
  induction n with
  | zero =>
    intro indices t hlen
    rw [List.length_eq_zero] at hlen
    subst hlen
    simp [selectPass]
  | succ n ih =>
    intro indices t hlen
    match indices, hlen with
    | i0 :: rest0, hlen =>
      have hklt : (if seq then 0 else rnd t % (i0 :: rest0).length)
          < (i0 :: rest0).length := by
        split
        · simp
        · exact Nat.mod_lt _ (by simp)
      have hrestlen :
          ((i0 :: rest0).eraseIdx
            (if seq then 0 else rnd t % (i0 :: rest0).length)).length = n := by
        rw [List.length_eraseIdx, if_pos hklt]
        omega
      have hiff := ih ((i0 :: rest0).eraseIdx
        (if seq then 0 else rnd t % (i0 :: rest0).length)) (t + 1) hrestlen
      rw [selectPass]
      cases hdec : decode (files.getD ((i0 :: rest0).getD
          (if seq then 0 else rnd t % (i0 :: rest0).length) 0) "") with
      | none =>
        simp only [hdec, hiff]
        constructor
        · intro hall i hi
          rcases mem_eq_getD_or_mem_eraseIdx (i0 :: rest0)
              (if seq then 0 else rnd t % (i0 :: rest0).length) hklt i hi with
            he | hmem
          · subst he
            rintro ⟨img, hdecode, _⟩
            rw [hdec] at hdecode
            cases hdecode
          · exact hall i hmem
        · intro hall i hi
          exact hall i (List.mem_of_mem_eraseIdx hi)
      | some img =>
        cases hacc : accept img with
        | true =>
          simp only [hdec, hacc, if_true, reduceCtorEq, false_iff, not_forall]
          refine ⟨_, getD_mem_of_lt (i0 :: rest0) _ hklt, ?_⟩
          intro hnot
          exact hnot ⟨img, hdec, hacc⟩
        | false =>
          simp only [hdec, hacc, Bool.false_eq_true, if_false, hiff]
          constructor
          · intro hall i hi
            rcases mem_eq_getD_or_mem_eraseIdx (i0 :: rest0)
                (if seq then 0 else rnd t % (i0 :: rest0).length) hklt i hi with
              he | hmem
            · subst he
              rintro ⟨img2, hdecode, haccept⟩
              rw [hdec] at hdecode
              cases hdecode
              rw [hacc] at haccept
              cases haccept
            · exact hall i hmem
          · intro hall i hi
            exact hall i (List.mem_of_mem_eraseIdx hi)

theorem selectPass_eq_some_spec {α : Type} (decode : String → Option α)
    (accept : α → Bool) (rnd : ℕ → ℕ) (seq : Bool) (files : List String) :
    ∀ (n : ℕ) (indices : List ℕ) (t : ℕ), indices.length = n →
      ∀ fi name img,
        selectPass decode accept rnd seq files indices t = some (fi, name, img) →
        fi ∈ indices ∧ name = files.getD fi "" ∧
          decode name = some img ∧ accept img = true := by
  intro n
  induction n with
  | zero =>
    intro indices t hlen
    rw [List.length_eq_zero] at hlen
    subst hlen
    intro fi name img h
    simp [selectPass] at h
  | succ n ih =>
    intro indices t hlen
    match indices, hlen with
    | i0 :: rest0, hlen =>
      have hklt : (if seq then 0 else rnd t % (i0 :: rest0).length)
          < (i0 :: rest0).length := by
        split
        · simp
        · exact Nat.mod_lt _ (by simp)
      have hrestlen :
          ((i0 :: rest0).eraseIdx
            (if seq then 0 else rnd t % (i0 :: rest0).length)).length = n := by
        rw [List.length_eraseIdx, if_pos hklt]
        omega
      intro fi name img h
      rw [selectPass] at h
      cases hdec : decode (files.getD ((i0 :: rest0).getD
          (if seq then 0 else rnd t % (i0 :: rest0).length) 0) "") with
      | none =>
        simp only [hdec] at h
        have := ih _ (t + 1) hrestlen fi name img h
        exact ⟨List.mem_of_mem_eraseIdx this.1, this.2⟩
      | some img2 =>
        simp only [hdec] at h
        cases hacc : accept img2 with
        | false =>
          simp only [hacc, Bool.false_eq_true, if_false] at h
          have := ih _ (t + 1) hrestlen fi name img h
          exact ⟨List.mem_of_mem_eraseIdx this.1, this.2⟩
        | true =>
          simp only [hacc, if_true] at h
          have htup := Option.some.inj h
          obtain ⟨rfl, rfl, rfl⟩ :
              (i0 :: rest0).getD (if seq then 0
                else rnd t % (i0 :: rest0).length) 0 = fi ∧
              files.getD ((i0 :: rest0).getD (if seq then 0
                else rnd t % (i0 :: rest0).length) 0) "" = name ∧
              img2 = img := by
            simpa [Prod.ext_iff] using htup
          exact ⟨getD_mem_of_lt (i0 :: rest0) _ hklt, rfl, hdec, hacc⟩

theorem forall_range_getD_iff (files : List String) (P : String → Prop) :
    (∀ i ∈ List.range files.length, P (files.getD i ""))
      ↔ ∀ f ∈ files, P f := by
  constructor
  · intro hall f hf
    rcases List.mem_iff_getElem.1 hf with ⟨i, hilt, rfl⟩
    have hi := hall i (List.mem_range.2 hilt)
    rwa [List.getD_eq_getElem files "" hilt] at hi
  · intro hall i hi
    have hilt := List.mem_range.1 hi
    rw [List.getD_eq_getElem files "" hilt]
    exact hall _ (List.getElem_mem hilt)

/-- C6 (amended): during one call of `get_next_background_image` the
candidate pool is reloaded at most once — exactly once, namely when the
working index set becomes exhausted, which happens exactly when no entry
of the pool at call time decodes and passes the acceptance test.  The
call returns the empty result (`.ok none`) exactly when the reload
produced a non-empty pool and still no candidate (of the entry pool, and
of the reloaded pool) both decodes successfully and passes the acceptance
test; when the working set exhausts and the reload produces an empty
pool, the call instead raises (IndexError/ValueError from
`pop`/`randint` on the empty index list) — it does not return the empty
result. -/
theorem get_next_reloads_once_and_none_iff {α : Type}
    (decode : String → Option α) (accept : α → Bool) (rnd : ℕ → ℕ)
    (seq : Bool) (files0 reloadFiles : List String) :
    (get_next_background_image decode accept rnd seq files0 reloadFiles).2.2
        ≤ 1 ∧
    ((get_next_background_image decode accept rnd seq files0 reloadFiles).2.2
          = 1 ↔
      ∀ f ∈ files0, ¬ acceptableFile decode accept f) ∧
    ((get_next_background_image decode accept rnd seq files0 reloadFiles).1
          = .ok none ↔
      (reloadFiles ≠ [] ∧
        (∀ f ∈ files0, ¬ acceptableFile decode accept f) ∧
        ∀ f ∈ reloadFiles, ¬ acceptableFile decode accept f)) ∧
    ((get_next_background_image decode accept rnd seq files0 reloadFiles).1
          = .error () ↔
      (reloadFiles = [] ∧
        ∀ f ∈ files0, ¬ acceptableFile decode accept f)) := by
  have hpass : ∀ (files : List String) (t : ℕ),
      (selectPass decode accept rnd seq files (List.range files.length) t
          = none ↔
        ∀ f ∈ files, ¬ acceptableFile decode accept f) := by
    intro files t
    rw [selectPass_eq_none_iff decode accept rnd seq files
      (List.range files.length).length (List.range files.length) t rfl]
    exact forall_range_getD_iff files
      (fun f => ¬ acceptableFile decode accept f)
  unfold get_next_background_image
  cases h1 : selectPass decode accept rnd seq files0
      (List.range files0.length) 0 with
  | some v =>
    obtain ⟨fi, name, img⟩ := v
    have hnotall : ¬ ∀ f ∈ files0, ¬ acceptableFile decode accept f := by
      intro hall
      rw [← hpass files0 0] at hall
      rw [h1] at hall
      cases hall
    refine ⟨by norm_num, ?_, ?_, ?_⟩
    · simp only []
      constructor
      · intro hcon
        exact absurd hcon (by norm_num)
      · intro hall
        exact absurd hall hnotall
    · simp only []
      constructor
      · intro hcon
        exact absurd hcon (by simp)
      · rintro ⟨_, hall, _⟩
        exact absurd hall hnotall
    · simp only []
      constructor
      · intro hcon
        exact absurd hcon (by simp)
      · rintro ⟨_, hall⟩
        exact absurd hall hnotall
  | none =>
    have hall0 : ∀ f ∈ files0, ¬ acceptableFile decode accept f :=
      (hpass files0 0).1 h1
    by_cases hre : reloadFiles.length = 0
    · have hremp : reloadFiles = [] := List.length_eq_zero.1 hre
      rw [if_pos hre]
      refine ⟨le_rfl, ⟨fun _ => hall0, fun _ => rfl⟩, ?_, ?_⟩
      · constructor
        · intro hcon
          exact absurd hcon (by simp)
        · rintro ⟨hne, _, _⟩
          exact absurd hremp hne
      · exact ⟨fun _ => ⟨hremp, hall0⟩, fun _ => rfl⟩
    · have hne : reloadFiles ≠ [] := by
        intro hcon
        exact hre (by rw [hcon]; rfl)
      rw [if_neg hre]
      cases h2 : selectPass decode accept rnd seq reloadFiles
          (List.range reloadFiles.length) files0.length with
      | some v =>
        obtain ⟨fi, name, img⟩ := v
        have hnotall : ¬ ∀ f ∈ reloadFiles,
            ¬ acceptableFile decode accept f := by
          intro hall
          rw [← hpass reloadFiles files0.length] at hall
          rw [h2] at hall
          cases hall
        refine ⟨le_rfl, ⟨fun _ => hall0, fun _ => rfl⟩, ?_, ?_⟩
        · constructor
          · intro hcon
            exact absurd hcon (by simp)
          · rintro ⟨_, _, hall⟩
            exact absurd hall hnotall
        · constructor
          · intro hcon
            exact absurd hcon (by simp)
          · rintro ⟨hcon, _⟩
            exact absurd hcon hne
      | none =>
        have hallR : ∀ f ∈ reloadFiles, ¬ acceptableFile decode accept f :=
          (hpass reloadFiles files0.length).1 h2
        refine ⟨le_rfl, ⟨fun _ => hall0, fun _ => rfl⟩,
          ⟨fun _ => ⟨hne, hall0, hallR⟩, fun _ => rfl⟩, ?_⟩
        constructor
        · intro hcon
          exact absurd hcon (by simp)
        · rintro ⟨hcon, _⟩
          exact absurd hcon hne

/-- C6 counterexample: entry pool `["a"]` whose only candidate fails to
decode, and a reload that yields an empty pool: no candidate decodes and
passes even after the single reload, yet the call does not return the
empty result — it raises (`.error ()`, the IndexError/ValueError from
`pop(0)`/`randint(0, -1)` on the empty reloaded index list), refuting the
returns-NONE-iff-nothing-acceptable claim as stated. -/
theorem get_next_raises_instead_of_none_on_empty_reload :
    (∀ f ∈ ["a"], ¬ acceptableFile (fun _ => (none : Option ℕ))
        (fun _ => true) f) ∧
    (∀ f ∈ ([] : List String), ¬ acceptableFile (fun _ => (none : Option ℕ))
        (fun _ => true) f) ∧
    (get_next_background_image (fun _ => (none : Option ℕ)) (fun _ => true)
        (fun _ => 0) true ["a"] []).1 = .error () ∧
    (get_next_background_image (fun _ => (none : Option ℕ)) (fun _ => true)
        (fun _ => 0) true ["a"] []).1 ≠ .ok none := by
  have hr : List.range 1 = [0] := by simp [List.range_succ]
  have heval : (get_next_background_image (fun _ => (none : Option ℕ))
      (fun _ => true) (fun _ => 0) true ["a"] []).1 = .error () := by
    simp [get_next_background_image, selectPass, hr]
  refine ⟨?_, ?_, heval, ?_⟩
  · intro f hf
    rintro ⟨img, hdec, _⟩
    cases hdec
  · intro f hf
    cases hf
  · rw [heval]
    intro hcon
    cases hcon

/-- C9: when `get_next_background_image` returns successfully, exactly one
entry — the one at the selected index, whose name is returned — is deleted
from the pool it drew from (`activePool`: the entry pool when no reload
happened, the reloaded pool otherwise): the final pool is `eraseIdx` at
that index, its length drops by exactly one, and every other entry
survives at its shifted position (so candidates skipped for decode
failures or threshold rejections remain).  A call that returns `none`
deletes nothing: the final pool is exactly the reloaded pool. -/
theorem get_next_removes_exactly_selected {α : Type}
    (decode : String → Option α) (accept : α → Bool) (rnd : ℕ → ℕ)
    (seq : Bool) (files0 reloadFiles : List String) :
    (∀ name img,
      (get_next_background_image decode accept rnd seq files0
          reloadFiles).1 = .ok (some (name, img)) →
      ∃ i, i < (activePool decode accept rnd seq files0 reloadFiles).length ∧
        (activePool decode accept rnd seq files0 reloadFiles).getD i ""
            = name ∧
        decode name = some img ∧ accept img = true ∧
        (get_next_background_image decode accept rnd seq files0
            reloadFiles).2.1
          = (activePool decode accept rnd seq files0 reloadFiles).eraseIdx i ∧
        (get_next_background_image decode accept rnd seq files0
            reloadFiles).2.1.length + 1
          = (activePool decode accept rnd seq files0 reloadFiles).length ∧
        (∀ j, j < i →
          (get_next_background_image decode accept rnd seq files0
              reloadFiles).2.1.getD j ""
            = (activePool decode accept rnd seq files0 reloadFiles).getD j "")
          ∧
        ∀ j, i < j →
          j < (activePool decode accept rnd seq files0 reloadFiles).length →
          (get_next_background_image decode accept rnd seq files0
              reloadFiles).2.1.getD (j - 1) ""
            = (activePool decode accept rnd seq files0 reloadFiles).getD j "")
      ∧
    ((get_next_background_image decode accept rnd seq files0
        reloadFiles).1 = .ok none →
      (get_next_background_image decode accept rnd seq files0 reloadFiles).2.1
        = reloadFiles) ∧
    ((get_next_background_image decode accept rnd seq files0
        reloadFiles).1 = .error () →
      (get_next_background_image decode accept rnd seq files0 reloadFiles).2.1
        = reloadFiles) := by
  have main : ∀ (files : List String) (t : ℕ) (fi : ℕ) (name : String)
      (img : α),
      selectPass decode accept rnd seq files (List.range files.length) t
          = some (fi, name, img) →
      fi < files.length ∧ files.getD fi "" = name ∧
        decode name = some img ∧ accept img = true ∧
        (files.eraseIdx fi).length + 1 = files.length ∧
        (∀ j, j < fi →
          (files.eraseIdx fi).getD j "" = files.getD j "") ∧
        ∀ j, fi < j → j < files.length →
          (files.eraseIdx fi).getD (j - 1) "" = files.getD j "" := by
    intro files t fi name img hsel
    obtain ⟨hmem, hname, hdec, hacc⟩ :=
      selectPass_eq_some_spec decode accept rnd seq files
        (List.range files.length).length (List.range files.length) t rfl
        fi name img hsel
    have hfilt : fi < files.length := List.mem_range.1 hmem
    have hlenE : (files.eraseIdx fi).length + 1 = files.length := by
      rw [List.length_eraseIdx, if_pos hfilt]
      omega
    refine ⟨hfilt, hname.symm, hdec, hacc, hlenE, ?_, ?_⟩
    · intro j hj
      have hjE : j < (files.eraseIdx fi).length := by omega
      rw [List.getD_eq_getElem _ "" hjE,
        List.getD_eq_getElem _ "" (by omega : j < files.length),
        List.getElem_eraseIdx_of_lt _ _ _ _ hj]
    · intro j hj hjlen
      have hjE : j - 1 < (files.eraseIdx fi).length := by omega
      rw [List.getD_eq_getElem _ "" hjE,
        List.getD_eq_getElem _ "" hjlen, List.getElem_eraseIdx]
      rw [dif_neg (by omega)]
      congr 1
      omega
  refine ⟨?_, ?_, ?_⟩
  · intro name img hres
    cases h1 : selectPass decode accept rnd seq files0
        (List.range files0.length) 0 with
    | some v =>
      obtain ⟨fi, name2, img2⟩ := v
      have hres2 : name2 = name ∧ img2 = img := by
        unfold get_next_background_image at hres
        rw [h1] at hres
        simpa using hres
      obtain ⟨rfl, rfl⟩ := hres2
      have hap : activePool decode accept rnd seq files0 reloadFiles
          = files0 := by
        simp only [activePool, get_next_background_image, h1]
        norm_num
      have hfin : (get_next_background_image decode accept rnd seq files0
          reloadFiles).2.1 = files0.eraseIdx fi := by
        simp only [get_next_background_image, h1]
      have hm := main files0 0 fi name2 img2 h1
      rw [hap, hfin]
      exact ⟨fi, hm.1, hm.2.1, hm.2.2.1, hm.2.2.2.1, rfl, hm.2.2.2.2⟩
    | none =>
      by_cases hre : reloadFiles.length = 0
      · exfalso
        unfold get_next_background_image at hres
        rw [h1, if_pos hre] at hres
        exact absurd hres (by simp)
      · cases h2 : selectPass decode accept rnd seq reloadFiles
            (List.range reloadFiles.length) files0.length with
        | some v =>
          obtain ⟨fi, name2, img2⟩ := v
          have hres2 : name2 = name ∧ img2 = img := by
            unfold get_next_background_image at hres
            rw [h1, if_neg hre, h2] at hres
            simpa using hres
          obtain ⟨rfl, rfl⟩ := hres2
          have hap : activePool decode accept rnd seq files0 reloadFiles
              = reloadFiles := by
            simp only [activePool, get_next_background_image, h1,
              if_neg hre, h2]
            norm_num
          have hfin : (get_next_background_image decode accept rnd seq files0
              reloadFiles).2.1 = reloadFiles.eraseIdx fi := by
            simp only [get_next_background_image, h1, if_neg hre, h2]
          have hm := main reloadFiles files0.length fi name2 img2 h2
          rw [hap, hfin]
          exact ⟨fi, hm.1, hm.2.1, hm.2.2.1, hm.2.2.2.1, rfl, hm.2.2.2.2⟩
        | none =>
          exfalso
          unfold get_next_background_image at hres
          rw [h1, if_neg hre, h2] at hres
          exact absurd hres (by simp)
  · intro hres
    cases h1 : selectPass decode accept rnd seq files0
        (List.range files0.length) 0 with
    | some v =>
      obtain ⟨fi, name2, img2⟩ := v
      unfold get_next_background_image at hres
      rw [h1] at hres
      exact absurd hres (by simp)
    | none =>
      by_cases hre : reloadFiles.length = 0
      · simp only [get_next_background_image, h1, if_pos hre]
      · cases h2 : selectPass decode accept rnd seq reloadFiles
            (List.range reloadFiles.length) files0.length with
        | some v =>
          obtain ⟨fi, name2, img2⟩ := v
          unfold get_next_background_image at hres
          rw [h1, if_neg hre, h2] at hres
          exact absurd hres (by simp)
        | none =>
          simp only [get_next_background_image, h1, if_neg hre, h2]
  · intro hres
    cases h1 : selectPass decode accept rnd seq files0
        (List.range files0.length) 0 with
    | some v =>
      obtain ⟨fi, name2, img2⟩ := v
      unfold get_next_background_image at hres
      rw [h1] at hres
      exact absurd hres (by simp)
    | none =>
      by_cases hre : reloadFiles.length = 0
      · simp only [get_next_background_image, h1, if_pos hre]
      · cases h2 : selectPass decode accept rnd seq reloadFiles
            (List.range reloadFiles.length) files0.length with
        | some v =>
          obtain ⟨fi, name2, img2⟩ := v
          unfold get_next_background_image at hres
          rw [h1, if_neg hre, h2] at hres
          exact absurd hres (by simp)
        | none =>
          unfold get_next_background_image at hres
          rw [h1, if_neg hre, h2] at hres
          exact absurd hres (by simp)

/-- C9 witness: the removal property applied to a sequential call on the
one-entry pool `["a"]` with an always-succeeding decoder: the call selects
index 0 and the final pool is `["a"].eraseIdx 0 = []`. -/
theorem get_next_removes_exactly_selected_witness :
    ∃ i, i < (activePool (fun _ => some (5 : ℕ)) (fun _ => true)
        (fun _ => 0) true ["a"] []).length ∧
      (activePool (fun _ => some (5 : ℕ)) (fun _ => true)
          (fun _ => 0) true ["a"] []).getD i "" = "a" ∧
      (fun _ => some (5 : ℕ)) "a" = some 5 ∧
      (fun _ => true) (5 : ℕ) = true ∧
      (get_next_background_image (fun _ => some (5 : ℕ)) (fun _ => true)
          (fun _ => 0) true ["a"] []).2.1
        = (activePool (fun _ => some (5 : ℕ)) (fun _ => true)
            (fun _ => 0) true ["a"] []).eraseIdx i ∧
      (get_next_background_image (fun _ => some (5 : ℕ)) (fun _ => true)
          (fun _ => 0) true ["a"] []).2.1.length + 1
        = (activePool (fun _ => some (5 : ℕ)) (fun _ => true)
            (fun _ => 0) true ["a"] []).length ∧
      (∀ j, j < i →
        (get_next_background_image (fun _ => some (5 : ℕ)) (fun _ => true)
            (fun _ => 0) true ["a"] []).2.1.getD j ""
          = (activePool (fun _ => some (5 : ℕ)) (fun _ => true)
              (fun _ => 0) true ["a"] []).getD j "") ∧
      ∀ j, i < j →
        j < (activePool (fun _ => some (5 : ℕ)) (fun _ => true)
            (fun _ => 0) true ["a"] []).length →
        (get_next_background_image (fun _ => some (5 : ℕ)) (fun _ => true)
            (fun _ => 0) true ["a"] []).2.1.getD (j - 1) ""
          = (activePool (fun _ => some (5 : ℕ)) (fun _ => true)
              (fun _ => 0) true ["a"] []).getD j "" :=
  (get_next_removes_exactly_selected (fun _ => some (5 : ℕ)) (fun _ => true)
    (fun _ => 0) true ["a"] []).1 "a" 5 (by
      have hr : List.range 1 = [0] := by simp [List.range_succ]
      simp [get_next_background_image, selectPass, hr])

end MSB
